import Mathlib

/-!
Shallow embedding of the page-specification parser and split logic of
`src/utils/pdf_operations.py`, and of the compression-target resolver,
size validation and outcome classification of `src/handlers/compress.py`
(pdf-snap-telegrambot).

Python strings are modelled as `List Char` (obtained from Lean `String`
literals via `.data`); Python `float` values arising from decimal literals
and divisions by `1024` are modelled as exact rationals `ℚ`.
-/

/-- The whitespace characters stripped by Python's `str.strip()` /
matched by the regex class `\s` (ASCII part). -/
def isPySpace (c : Char) : Bool :=
  c = ' ' || c = '\t' || c = '\n' || c = '\r' || c = '\x0b' || c = '\x0c'

/-- Python `str.strip()`: drop leading and trailing whitespace. -/
def pyStrip (l : List Char) : List Char :=
  ((l.dropWhile isPySpace).reverse.dropWhile isPySpace).reverse

/-- Python `str.split(sep)` for a one-character separator `sep`:
splits at every occurrence, keeping empty pieces (`"".split(',') = ['']`). -/
def pySplitChar (sep : Char) : List Char → List (List Char)
  | [] => [[]]
  | c :: cs =>
    if c = sep then [] :: pySplitChar sep cs
    else
      match pySplitChar sep cs with
      | [] => [[c]]
      | t :: ts => (c :: t) :: ts

/-- Digit run of Python `int()`: digits with single underscores allowed
between digits (`int("1_0") = 10`), rejecting leading/trailing or doubled
underscores.  `acc` is the value of the digits consumed so far. -/
def pyDigits : Nat → List Char → Option Nat
  | acc, [] => some acc
  | _, ['_'] => none
  | acc, '_' :: c :: cs =>
    if c.isDigit then pyDigits (acc * 10 + (c.toNat - 48)) cs else none
  | acc, c :: cs =>
    if c.isDigit then pyDigits (acc * 10 + (c.toNat - 48)) cs else none

/-- Unsigned part of Python `int()`: a nonempty digit string (with the
underscore rule), which must start with a digit. -/
def pyUnsigned (l : List Char) : Option Nat :=
  match l with
  | [] => none
  | c :: _ => if c.isDigit then pyDigits 0 l else none

/-- Python `int(s)` on a string: strip whitespace, optional `+`/`-` sign,
then a nonempty digit string; `none` models the `ValueError`. -/
def parsePyInt (l : List Char) : Option Int :=
  match pyStrip l with
  | '+' :: rest => (pyUnsigned rest).map Int.ofNat
  | '-' :: rest => (pyUnsigned rest).map (fun n => -(Int.ofNat n : Int))
  | rest => (pyUnsigned rest).map Int.ofNat

/-- `n` consecutive integers starting at `a`. -/
def intRange (a : Int) : Nat → List Int
  | 0 => []
  | n + 1 => a :: intRange (a + 1) n

/-- Python `list(range(a, b + 1))`: the integers `a, a+1, ..., b`,
empty when `a > b`. -/
def rangeList (a b : Int) : List Int :=
  intRange a (b + 1 - a).toNat

/-- The `end`-keyword substitution of `_parse_page_spec`:
`if end.lower() == 'end': end = str(total_pages)` — performed on the
(already stripped) right-hand side of a range token only. -/
def substEnd (total : Int) (e : List Char) : List Char :=
  if e.map Char.toLower = "end".data then (toString total).data else e

/-- The pages contributed by one comma-separated token of
`_parse_page_spec` (`src/utils/pdf_operations.py`, lines 133-160):
strip; if it contains `-`, split on `-` into exactly two parts, strip
both, substitute `end` on the right side, parse both as ints and expand
the inclusive range, skipping the token on any failure; otherwise parse
a single int, skipping on failure. -/
def tokenPages (total : Int) (tok0 : List Char) : List Int :=
  let tok := pyStrip tok0
  if tok.contains '-' then
    match pySplitChar '-' tok with
    | [s, e] =>
      match parsePyInt (pyStrip s), parsePyInt (substEnd total (pyStrip e)) with
      | some a, some b => rangeList a b
      | _, _ => []
    | _ => []
  else
    match parsePyInt tok with
    | some n => [n]
    | none => []

/-- The `pages` list accumulated across tokens
(`pages.extend(...)` / `pages.append(...)` in source order). -/
def collectPages (total : Int) : List (List Char) → List Int
  | [] => []
  | t :: ts => tokenPages total t ++ collectPages total ts

/-- Insert an integer into a strictly sorted list, keeping it strictly
sorted and duplicate-free. -/
def insertPage (x : Int) : List Int → List Int
  | [] => [x]
  | y :: ys =>
    if x < y then x :: y :: ys
    else if x = y then y :: ys
    else y :: insertPage x ys

/-- Python `sorted(list(set(pages)))`: the strictly ascending list of the
distinct elements of `l` (computed here by duplicate-dropping insertion
sort, which produces exactly that list). -/
def dedupSort (l : List Int) : List Int :=
  l.foldr insertPage []

/-- `PDFOperations._parse_page_spec(spec, total_pages)`: split the spec on
commas, expand every token, deduplicate and sort ascending. -/
def parsePageSpec (spec : String) (total : Int) : List Int :=
  dedupSort (collectPages total (pySplitChar ',' spec.data))

/-- The two `ValueError`s raised by `split_pdf`:
`"No valid pages specified"` and
`f"Page {page_num} is out of range (1-{total_pages})"`. -/
inductive SplitError where
  | noValidPages : SplitError
  | pageOutOfRange (page : Int) (total : Int) : SplitError
deriving DecidableEq, Repr

/-- The per-page loop of `split_pdf`: pages within `[1, total]` are added
to the writer; the first page outside raises. -/
def checkPages (total : Int) : List Int → Option SplitError
  | [] => none
  | p :: ps =>
    if 1 ≤ p ∧ p ≤ total then checkPages total ps
    else some (SplitError.pageOutOfRange p total)

/-- `PDFOperations.split_pdf` (`src/utils/pdf_operations.py`, lines
94-112), after the PDF has been read and `total_pages` determined: parse
the spec; error if no pages; error at the first out-of-range page;
otherwise succeed with the number of extracted pages. -/
def splitPdf (spec : String) (total : Int) : Except SplitError Nat :=
  let pageNumbers := parsePageSpec spec total
  if pageNumbers = [] then Except.error SplitError.noValidPages
  else
    match checkPages total pageNumbers with
    | some e => Except.error e
    | none => Except.ok pageNumbers.length

/-- The token shapes `_parse_page_spec` skips silently: a `-` token that
does not split into exactly two sub-parts, or one whose integer parts
(after the `end` substitution) fail to parse. -/
def tokenMalformed (total : Int) (tok0 : List Char) : Bool :=
  let tok := pyStrip tok0
  if tok.contains '-' then
    match pySplitChar '-' tok with
    | [s, e] =>
      (parsePyInt (pyStrip s)).isNone || (parsePyInt (substEnd total (pyStrip e))).isNone
    | _ => true
  else (parsePyInt tok).isNone


/-- Python `str.split(maxsplit=1)` (whitespace splitting): `none` when
fewer than two parts result; otherwise the first whitespace-free word and
the remainder after the separating whitespace run. -/
def pySplitMax1 (s0 : List Char) : Option (List Char × List Char) :=
  let s := s0.dropWhile isPySpace
  let head := s.takeWhile (fun c => !(isPySpace c))
  let rest := (s.dropWhile (fun c => !(isPySpace c))).dropWhile isPySpace
  if head = [] ∨ rest = [] then none else some (head, rest)

/-- Value of a digit run, base 10. -/
def digitsToNat (l : List Char) : Nat :=
  l.foldl (fun a c => a * 10 + (c.toNat - 48)) 0

/-- The leading-number part `(\d+(?:\.\d+)?)` of the two `re.match`
patterns of `parse_compression_target`: a maximal digit run, optionally
followed by `.` and a further nonempty digit run; returns the matched
value (as an exact rational) and the remaining characters.  For this
pattern greedy matching never needs to backtrack, so the maximal-munch
parse below is exactly `re` semantics. -/
def matchNumber (l : List Char) : Option (ℚ × List Char) :=
  let ds := l.takeWhile Char.isDigit
  let rest := l.dropWhile Char.isDigit
  if ds = [] then none
  else
    match rest with
    | '.' :: rest2 =>
      let fs := rest2.takeWhile Char.isDigit
      if fs = [] then some ((digitsToNat ds : ℚ), rest)
      else some ((digitsToNat ds : ℚ) + (digitsToNat fs : ℚ) / (10 : ℚ) ^ fs.length,
                 rest2.dropWhile Char.isDigit)
    | _ => some ((digitsToNat ds : ℚ), rest)

/-- `re.match(r'(\d+(?:\.\d+)?)\s*(?:%|percent)', target)`: the matched
percentage value, or `none`. -/
def matchPercent (l : List Char) : Option ℚ :=
  match matchNumber l with
  | none => none
  | some (v, rest) =>
    if (rest.dropWhile isPySpace).head? = some '%' ∨
        "percent".data.isPrefixOf (rest.dropWhile isPySpace) then some v
    else none

/-- `re.match(r'(\d+(?:\.\d+)?)\s*(mb|kb|m|k)', target)`: the matched
value together with the unit text captured by group 2 (alternatives tried
in the regex order `mb`, `kb`, `m`, `k`). -/
def matchSize (l : List Char) : Option (ℚ × List Char) :=
  match matchNumber l with
  | none => none
  | some (v, rest) =>
    if "mb".data.isPrefixOf (rest.dropWhile isPySpace) then some (v, "mb".data)
    else if "kb".data.isPrefixOf (rest.dropWhile isPySpace) then some (v, "kb".data)
    else if "m".data.isPrefixOf (rest.dropWhile isPySpace) then some (v, "m".data)
    else if "k".data.isPrefixOf (rest.dropWhile isPySpace) then some (v, "k".data)
    else none

/-- The result dictionary of `parse_compression_target`, as a closed sum
type: `quality`/`percentage`/`size` mirror `{'type': ...}`, and the three
error constructors carry the data interpolated into the corresponding
error message strings. -/
inductive CompressionTarget where
  | quality (level : List Char) : CompressionTarget
  | percentage (value : ℚ) : CompressionTarget
  | size (mb : ℚ) : CompressionTarget
  /-- `f'Percentage must be between 10% and 90%, got {percent}%'` -/
  | errPercentOutOfRange (value : ℚ) : CompressionTarget
  /-- `'Target size must be between 0.1MB and 50MB'` -/
  | errSizeOutOfRange : CompressionTarget
  /-- `f'Invalid format: {target}'` -/
  | errInvalidFormat (arg : List Char) : CompressionTarget
deriving DecidableEq, Repr

/-- `target['type'] == 'error'`. -/
def CompressionTarget.isError : CompressionTarget → Bool
  | .errPercentOutOfRange _ => true
  | .errSizeOutOfRange => true
  | .errInvalidFormat _ => true
  | _ => false

/-- The body of `parse_compression_target` past the command split
(`src/handlers/compress.py`, lines 36-70), applied to the stripped
argument: percentage pattern first (range `[10, 90]`), then absolute-size
pattern (`kb`/`k` divided by `1024`, range `[0.1, 50]`), then the quality
levels of `config.COMPRESSION_LEVELS` (`low`, `default`, `high`),
else an invalid-format error. -/
def resolveArg (target : List Char) : CompressionTarget :=
  match matchPercent target with
  | some percent =>
    if 10 ≤ percent ∧ percent ≤ 90 then CompressionTarget.percentage percent
    else CompressionTarget.errPercentOutOfRange percent
  | none =>
    match matchSize target with
    | some (v, unit) =>
      let sizeMb := if unit = "kb".data ∨ unit = "k".data then v / 1024 else v
      if 1/10 ≤ sizeMb ∧ sizeMb ≤ 50 then CompressionTarget.size sizeMb
      else CompressionTarget.errSizeOutOfRange
    | none =>
      if target = "low".data ∨ target = "default".data ∨ target = "high".data then
        CompressionTarget.quality target
      else CompressionTarget.errInvalidFormat target

/-- `parse_compression_target(text)`: lower-case and strip the whole
command text, split off the command word (`split(maxsplit=1)`); with no
argument return the default quality, otherwise resolve the stripped
argument. -/
def parseCompressionTarget (text : String) : CompressionTarget :=
  match pySplitMax1 (pyStrip (text.data.map Char.toLower)) with
  | none => CompressionTarget.quality "default".data
  | some (_, rest) => resolveArg (pyStrip rest)


/-- The three user-visible outcomes of a compression run:
"minimal reduction", "target met", "close to target". -/
inductive CompressionOutcome where
  | minimal : CompressionOutcome
  | met : CompressionOutcome
  | close : CompressionOutcome
deriving DecidableEq, Repr

/-- The outcome classification of `compress_command`
(`src/handlers/compress.py`, lines 212-260): `minimal` when
`compressed_size_mb >= original_size_mb * 0.98`; otherwise `close` when a
percentage or size target is missed by more than 15% relative deviation,
else `met` (quality targets are always `met`). -/
def classifyOutcome (originalMb compressedMb : ℚ) (target : CompressionTarget) :
    CompressionOutcome :=
  if originalMb * (98 / 100) ≤ compressedMb then CompressionOutcome.minimal
  else
    match target with
    | CompressionTarget.percentage value =>
      if |compressedMb - originalMb * (value / 100)| / (originalMb * (value / 100)) * 100 > 15
      then CompressionOutcome.close
      else CompressionOutcome.met
    | CompressionTarget.size mb =>
      if |compressedMb - mb| / mb * 100 > 15 then CompressionOutcome.close
      else CompressionOutcome.met
    | _ => CompressionOutcome.met

/-- What `compress_command` does after resolving the target and reading
the original file size: report the target error, report "target size too
large", or go on to call the external compression. -/
inductive CompressAction where
  | reportTargetError (t : CompressionTarget) : CompressAction
  | reportTargetTooLarge (targetMb originalMb : ℚ) : CompressAction
  | runCompression (t : CompressionTarget) : CompressAction
deriving DecidableEq, Repr

/-- The validation phase of `compress_command`
(`src/handlers/compress.py`, lines 124-163): an error target is reported
first; then `if target['type'] == 'size' and target['value'] >=
original_size` the "target size too large" message is sent and the
handler returns; otherwise the external compression call is reached. -/
def compressDispatch (text : String) (originalSizeMb : ℚ) : CompressAction :=
  let target := parseCompressionTarget text
  if target.isError then CompressAction.reportTargetError target
  else
    match target with
    | CompressionTarget.size v =>
      if originalSizeMb ≤ v then CompressAction.reportTargetTooLarge v originalSizeMb
      else CompressAction.runCompression (CompressionTarget.size v)
    | t => CompressAction.runCompression t

/-! ### Properties of the sorted-deduplication step -/

theorem mem_insertPage (x p : Int) (l : List Int) :
    p ∈ insertPage x l ↔ p = x ∨ p ∈ l := by
  induction l with
  | nil => simp [insertPage]
  | cons y ys ih =>
    simp only [insertPage]
    split
    · simp [List.mem_cons]
    · split
      · rename_i hxy
        subst hxy
        simp [List.mem_cons]
      · simp [List.mem_cons, ih]
        tauto

theorem sorted_insertPage (x : Int) (l : List Int) (h : List.Sorted (· < ·) l) :
    List.Sorted (· < ·) (insertPage x l) := by
  induction l with
  | nil => simp [insertPage]
  | cons y ys ih =>
    rw [List.sorted_cons] at h
    obtain ⟨hy, hys⟩ := h
    simp only [insertPage]
    split
    · rename_i hlt
      rw [List.sorted_cons]
      refine ⟨?_, by rw [List.sorted_cons]; exact ⟨hy, hys⟩⟩
      intro b hb
      rcases List.mem_cons.mp hb with hb | hb
      · exact hb ▸ hlt
      · exact lt_trans hlt (hy b hb)
    · split
      · rw [List.sorted_cons]
        exact ⟨hy, hys⟩
      · rename_i hnlt hne
        rw [List.sorted_cons]
        refine ⟨?_, ih hys⟩
        intro b hb
        rw [mem_insertPage] at hb
        rcases hb with hb | hb
        · subst hb
          omega
        · exact hy b hb

theorem mem_dedupSort (p : Int) (l : List Int) : p ∈ dedupSort l ↔ p ∈ l := by
  induction l with
  | nil => simp [dedupSort]
  | cons x xs ih =>
    simp only [dedupSort, List.foldr_cons] at *
    rw [mem_insertPage, ih, List.mem_cons]

theorem sorted_dedupSort (l : List Int) : List.Sorted (· < ·) (dedupSort l) := by
  induction l with
  | nil => simp [dedupSort]
  | cons x xs ih => exact sorted_insertPage x _ ih

theorem nodup_dedupSort (l : List Int) : (dedupSort l).Nodup :=
  (sorted_dedupSort l).nodup

/-- Two strictly ascending lists with the same members are equal. -/
theorem sorted_lt_ext : ∀ {l1 l2 : List Int}, List.Sorted (· < ·) l1 →
    List.Sorted (· < ·) l2 → (∀ x, x ∈ l1 ↔ x ∈ l2) → l1 = l2 := by
  intro l1
  induction l1 with
  | nil =>
    intro l2 _ _ hmem
    cases l2 with
    | nil => rfl
    | cons y ys => exact absurd ((hmem y).mpr (List.mem_cons_self y ys)) (List.not_mem_nil y)
  | cons x xs ih =>
    intro l2 h1 h2 hmem
    cases l2 with
    | nil => exact absurd ((hmem x).mp (List.mem_cons_self x xs)) (List.not_mem_nil x)
    | cons y ys =>
      rw [List.sorted_cons] at h1 h2
      obtain ⟨hx, hxs⟩ := h1
      obtain ⟨hy, hys⟩ := h2
      have hxy : x = y := by
        rcases List.mem_cons.mp ((hmem x).mp (List.mem_cons_self x xs)) with h | h
        · exact h
        · rcases List.mem_cons.mp ((hmem y).mpr (List.mem_cons_self y ys)) with h' | h'
          · exact h'.symm
          · exact absurd (lt_trans (hy x h) (hx y h')) (lt_irrefl y)
      subst hxy
      have : xs = ys := by
        apply ih hxs hys
        intro z
        constructor
        · intro hz
          rcases List.mem_cons.mp ((hmem z).mp (List.mem_cons_of_mem x hz)) with h | h
          · exact absurd (h ▸ hx z hz) (lt_irrefl z)
          · exact h
        · intro hz
          rcases List.mem_cons.mp ((hmem z).mpr (List.mem_cons_of_mem x hz)) with h | h
          · exact absurd (h ▸ hy z hz) (lt_irrefl z)
          · exact h
      rw [this]

theorem dedupSort_eq_of_mem_iff {l1 l2 : List Int} (h : ∀ x, x ∈ l1 ↔ x ∈ l2) :
    dedupSort l1 = dedupSort l2 :=
  sorted_lt_ext (sorted_dedupSort l1) (sorted_dedupSort l2)
    (fun x => by rw [mem_dedupSort, mem_dedupSort]; exact h x)

/-! ### Properties of token collection and range expansion -/

theorem mem_intRange : ∀ (n : Nat) (a p : Int), p ∈ intRange a n ↔ a ≤ p ∧ p < a + n := by
  intro n
  induction n with
  | zero =>
    intro a p
    simp only [intRange, List.not_mem_nil, false_iff]
    omega
  | succ m ih =>
    intro a p
    simp only [intRange, List.mem_cons, ih]
    omega

theorem mem_rangeList (a b p : Int) : p ∈ rangeList a b ↔ a ≤ p ∧ p ≤ b := by
  rw [rangeList, mem_intRange]
  omega

theorem collectPages_append (total : Int) (l1 l2 : List (List Char)) :
    collectPages total (l1 ++ l2) = collectPages total l1 ++ collectPages total l2 := by
  induction l1 with
  | nil => simp [collectPages]
  | cons t ts ih => simp [collectPages, ih]

theorem mem_collectPages (total : Int) (p : Int) (parts : List (List Char)) :
    p ∈ collectPages total parts ↔ ∃ t ∈ parts, p ∈ tokenPages total t := by
  induction parts with
  | nil => simp [collectPages]
  | cons t ts ih =>
    simp only [collectPages, List.mem_append, ih]
    constructor
    · rintro (h | ⟨u, hu, hp⟩)
      · exact ⟨t, List.mem_cons_self t ts, h⟩
      · exact ⟨u, List.mem_cons_of_mem t hu, hp⟩
    · rintro ⟨u, hu, hp⟩
      rcases List.mem_cons.mp hu with h | h
      · exact Or.inl (h ▸ hp)
      · exact Or.inr ⟨u, h, hp⟩

/-! ### Properties of the split validation loop -/

theorem checkPages_eq_none (total : Int) : ∀ l : List Int,
    checkPages total l = none ↔ ∀ p ∈ l, 1 ≤ p ∧ p ≤ total := by
  intro l
  induction l with
  | nil => simp [checkPages]
  | cons p ps ih =>
    simp only [checkPages]
    split
    · rename_i hp
      rw [ih]
      constructor
      · intro h q hq
        rcases List.mem_cons.mp hq with h' | h'
        · exact h' ▸ hp
        · exact h q h'
      · intro h q hq
        exact h q (List.mem_cons_of_mem p hq)
    · rename_i hp
      simp only [reduceCtorEq, false_iff]
      intro h
      exact hp (h p (List.mem_cons_self p ps))

theorem checkPages_eq_some (total : Int) : ∀ (l : List Int) (e : SplitError),
    checkPages total l = some e →
    ∃ p, e = SplitError.pageOutOfRange p total ∧ p ∈ l ∧ ¬(1 ≤ p ∧ p ≤ total) := by
  intro l
  induction l with
  | nil => simp [checkPages]
  | cons p ps ih =>
    intro e
    simp only [checkPages]
    split
    · intro h
      obtain ⟨q, hq, hmem, hbad⟩ := ih e h
      exact ⟨q, hq, List.mem_cons_of_mem p hmem, hbad⟩
    · rename_i hp
      intro h
      refine ⟨p, ?_, List.mem_cons_self p ps, hp⟩
      cases h
      rfl

theorem rangeList_eq_nil_of_lt (a b : Int) (h : b < a) : rangeList a b = [] := by
  have h0 : (b + 1 - a).toNat = 0 := by omega
  rw [rangeList, h0]
  rfl

/-- The range branch of `tokenPages`, under the hypotheses that the
stripped token contains `-`, splits into exactly two parts, and both
sides parse (after the `end` substitution on the right side). -/
theorem tokenPages_range (total a b : Int) (tok s e : List Char)
    (hdash : (pyStrip tok).contains '-' = true)
    (hsplit : pySplitChar '-' (pyStrip tok) = [s, e])
    (ha : parsePyInt (pyStrip s) = some a)
    (hb : parsePyInt (substEnd total (pyStrip e)) = some b) :
    tokenPages total tok = rangeList a b := by
  simp only [tokenPages, hdash, if_true, hsplit, ha, hb]

/-- C1: a well-formed range token `A-B` (with `end` already substituted
by `total_pages` where it occurs on the right) contributes exactly the
integers from `A` to `B` inclusive; a reversed range with `A > B`
contributes zero pages rather than failing; and
`parse("1-3", 10) = [1,2,3]`, `parse("2-end", 5) = [2,3,4,5]`,
`parse("1-3,5,7-end", 10) = [1,2,3,5,7,8,9,10]`. -/
theorem c1_range_expansion (total a b : Int) (tok s e : List Char)
    (hdash : (pyStrip tok).contains '-' = true)
    (hsplit : pySplitChar '-' (pyStrip tok) = [s, e])
    (ha : parsePyInt (pyStrip s) = some a)
    (hb : parsePyInt (substEnd total (pyStrip e)) = some b) :
    (∀ p : Int, p ∈ tokenPages total tok ↔ a ≤ p ∧ p ≤ b) ∧
    (b < a → tokenPages total tok = []) ∧
    parsePageSpec "1-3" 10 = [1, 2, 3] ∧
    parsePageSpec "2-end" 5 = [2, 3, 4, 5] ∧
    parsePageSpec "1-3,5,7-end" 10 = [1, 2, 3, 5, 7, 8, 9, 10] := by
  have htok := tokenPages_range total a b tok s e hdash hsplit ha hb
  refine ⟨?_, ?_, by decide, by decide, by decide⟩
  · intro p
    rw [htok, mem_rangeList]
  · intro hba
    rw [htok, rangeList_eq_nil_of_lt a b hba]

theorem c1_range_expansion_witness :
    (∀ p : Int, p ∈ tokenPages 10 "4-6".data ↔ 4 ≤ p ∧ p ≤ 6) ∧
    ((6 : Int) < 4 → tokenPages 10 "4-6".data = []) ∧
    parsePageSpec "1-3" 10 = [1, 2, 3] ∧
    parsePageSpec "2-end" 5 = [2, 3, 4, 5] ∧
    parsePageSpec "1-3,5,7-end" 10 = [1, 2, 3, 5, 7, 8, 9, 10] :=
  c1_range_expansion 10 4 6 "4-6".data "4".data "6".data
    (by decide) (by decide) (by decide) (by decide)

/-- C2: the parser's output is strictly ascending with no duplicates,
and reordering the comma-separated tokens (as lists of tokens related by
a permutation) yields the identical output; in particular
`parse("3,1", 10) = parse("1,3", 10)`. -/
theorem c2_sorted_nodup_reorder (spec : String) (total : Int) :
    List.Sorted (· < ·) (parsePageSpec spec total) ∧
    (parsePageSpec spec total).Nodup ∧
    (∀ qs : List (List Char), (pySplitChar ',' spec.data).Perm qs →
      parsePageSpec spec total = dedupSort (collectPages total qs)) ∧
    parsePageSpec "3,1" 10 = parsePageSpec "1,3" 10 := by
  refine ⟨sorted_dedupSort _, nodup_dedupSort _, ?_, by decide⟩
  intro qs hperm
  unfold parsePageSpec
  apply dedupSort_eq_of_mem_iff
  intro x
  rw [mem_collectPages, mem_collectPages]
  constructor
  · rintro ⟨t, ht, hx⟩
    exact ⟨t, hperm.mem_iff.mp ht, hx⟩
  · rintro ⟨t, ht, hx⟩
    exact ⟨t, hperm.mem_iff.mpr ht, hx⟩

theorem c2_sorted_nodup_reorder_witness :
    parsePageSpec "3,1" 10 = dedupSort (collectPages 10 ["1".data, "3".data]) :=
  (c2_sorted_nodup_reorder "3,1" 10).2.2.1 ["1".data, "3".data] (by decide)

/-- A malformed token contributes no pages: `_parse_page_spec` skips it. -/
theorem tokenPages_eq_nil_of_malformed (total : Int) (tok : List Char)
    (h : tokenMalformed total tok = true) : tokenPages total tok = [] := by
  cases hd : (pyStrip tok).contains '-' with
  | false =>
    simp only [tokenMalformed, hd, Bool.false_eq_true, if_false, Option.isNone_iff_eq_none] at h
    simp only [tokenPages, hd, Bool.false_eq_true, if_false, h]
  | true =>
    simp only [tokenMalformed, hd, if_true] at h
    simp only [tokenPages, hd, if_true]
    rcases hsp : pySplitChar '-' (pyStrip tok) with _ | ⟨s, _ | ⟨e, _ | _⟩⟩
    · rfl
    · rfl
    · rw [hsp] at h
      simp only [Bool.or_eq_true, Option.isNone_iff_eq_none] at h
      show (match parsePyInt (pyStrip s), parsePyInt (substEnd total (pyStrip e)) with
            | some a, some b => rangeList a b
            | _, _ => []) = []
      rcases h with h | h
      · rw [h]
      · rw [h]
        rcases parsePyInt (pyStrip s) with _ | a <;> rfl
    · rfl

/-- C4: a malformed token (failed integer parts, or a `-` token that does
not split into exactly two sub-parts) is skipped silently; the remaining
valid tokens still produce their pages, and
`parse("1,abc,3", 10) = [1,3]` with no error raised. -/
theorem c4_lenient_token_skipping (total : Int) (tok : List Char) (l1 l2 : List (List Char))
    (h : tokenMalformed total tok = true) :
    tokenPages total tok = [] ∧
    dedupSort (collectPages total (l1 ++ tok :: l2)) = dedupSort (collectPages total (l1 ++ l2)) ∧
    parsePageSpec "1,abc,3" 10 = [1, 3] ∧
    splitPdf "1,abc,3" 10 = Except.ok 2 := by
  have hskip := tokenPages_eq_nil_of_malformed total tok h
  refine ⟨hskip, ?_, by decide, by rfl⟩
  have hsplit2 : collectPages total (l1 ++ tok :: l2) =
      collectPages total l1 ++ (tokenPages total tok ++ collectPages total l2) := by
    rw [collectPages_append]
    rfl
  rw [hsplit2, hskip, List.nil_append, ← collectPages_append]

theorem c4_lenient_token_skipping_witness :
    tokenPages 10 "abc".data = [] ∧
    dedupSort (collectPages 10 (["1".data] ++ "abc".data :: ["3".data])) =
      dedupSort (collectPages 10 (["1".data] ++ ["3".data])) ∧
    parsePageSpec "1,abc,3" 10 = [1, 3] ∧
    splitPdf "1,abc,3" 10 = Except.ok 2 :=
  c4_lenient_token_skipping 10 "abc".data ["1".data] ["3".data] (by decide)

/-- C5 counterexample: the claim asserts that `end` is substituted on
either side of a range, so that `parse("end-end", 5)` includes page 5;
in the code only the right side is substituted, the left side fails
integer parsing, and the token is skipped entirely. -/
theorem c5_counterexample : ¬ ((5 : Int) ∈ parsePageSpec "end-end" 5) := by decide

/-- C5 (amended): only the right-hand side of a range token undergoes the
case-insensitive `end` → `total_pages` substitution before integer
parsing; a left-hand side equal to `end` fails parsing so the token is
skipped, hence `parse("end-end", 5) = []` and `parse("end-5", 5) = []`
while `parse("2-end", 5) = [2,3,4,5]` (and case-insensitively
`parse("2-END", 5) = [2,3,4,5]`). -/
theorem c5_end_substitution (total : Int) (tok s e : List Char)
    (hdash : (pyStrip tok).contains '-' = true)
    (hsplit : pySplitChar '-' (pyStrip tok) = [s, e]) :
    tokenPages total tok =
      (match parsePyInt (pyStrip s), parsePyInt (substEnd total (pyStrip e)) with
       | some a, some b => rangeList a b
       | _, _ => []) ∧
    substEnd total "end".data = (toString total).data ∧
    substEnd total "End".data = (toString total).data ∧
    substEnd total "END".data = (toString total).data ∧
    parsePyInt "end".data = none ∧
    parsePageSpec "end-end" 5 = [] ∧
    parsePageSpec "end-5" 5 = [] ∧
    parsePageSpec "2-end" 5 = [2, 3, 4, 5] ∧
    parsePageSpec "2-END" 5 = [2, 3, 4, 5] := by
  refine ⟨?_, by simp [substEnd], by simp [substEnd], by simp [substEnd], by decide,
    by decide, by decide, by decide, by decide⟩
  simp only [tokenPages, hdash, if_true, hsplit]

theorem c5_end_substitution_witness :
    tokenPages 5 "end-3".data =
      (match parsePyInt (pyStrip "end".data), parsePyInt (substEnd 5 (pyStrip "3".data)) with
       | some a, some b => rangeList a b
       | _, _ => []) :=
  (c5_end_substitution 5 "end-3".data "end".data "3".data (by decide) (by decide)).1

/-- C3: `split_pdf` fails if and only if the parsed page list is empty
(error "No valid pages specified") or some parsed page lies outside
`[1, total_pages]` (error naming the offending page and the range
`1..total_pages`); on success it returns the number of distinct extracted
pages. -/
theorem c3_split_validation (spec : String) (total : Int) :
    ((∃ e, splitPdf spec total = Except.error e) ↔
      (parsePageSpec spec total = [] ∨
        ∃ p ∈ parsePageSpec spec total, p < 1 ∨ total < p)) ∧
    (splitPdf spec total = Except.error SplitError.noValidPages ↔
      parsePageSpec spec total = []) ∧
    ((∃ p, splitPdf spec total = Except.error (SplitError.pageOutOfRange p total) ∧
        p ∈ parsePageSpec spec total ∧ (p < 1 ∨ total < p)) ↔
      (parsePageSpec spec total ≠ [] ∧
        ∃ p ∈ parsePageSpec spec total, p < 1 ∨ total < p)) ∧
    (splitPdf spec total = Except.ok (parsePageSpec spec total).length ↔
      (parsePageSpec spec total ≠ [] ∧
        ∀ p ∈ parsePageSpec spec total, 1 ≤ p ∧ p ≤ total)) := by
  by_cases hE : parsePageSpec spec total = []
  · have hsp : splitPdf spec total = Except.error SplitError.noValidPages := by
      simp only [splitPdf, hE, if_pos]
    refine ⟨?_, ?_, ?_, ?_⟩
    · simp [hsp, hE]
    · simp [hsp, hE]
    · simp [hsp, hE]
    · simp [hsp, hE]
  · cases hc : checkPages total (parsePageSpec spec total) with
    | none =>
      have hall := (checkPages_eq_none total _).mp hc
      have hsp : splitPdf spec total = Except.ok (parsePageSpec spec total).length := by
        simp only [splitPdf, if_neg hE, hc]
      have hnobad : ¬ ∃ p ∈ parsePageSpec spec total, p < 1 ∨ total < p := by
        rintro ⟨p, hp, hbad⟩
        have := hall p hp
        omega
      refine ⟨?_, ?_, ?_, ?_⟩
      · simp only [hsp, reduceCtorEq, exists_false, false_iff]
        rintro (h | h)
        · exact hE h
        · exact hnobad h
      · simp [hsp, hE]
      · simp only [hsp, reduceCtorEq, false_and, exists_false, false_iff]
        rintro ⟨_, h⟩
        exact hnobad h
      · simp only [hsp, true_iff]
        exact ⟨hE, hall⟩
    | some e =>
      obtain ⟨p, he, hpmem, hbad⟩ := checkPages_eq_some total _ e hc
      subst he
      have hsp : splitPdf spec total = Except.error (SplitError.pageOutOfRange p total) := by
        simp only [splitPdf, if_neg hE, hc]
      have hbad' : p < 1 ∨ total < p := by omega
      refine ⟨?_, ?_, ?_, ?_⟩
      · simp only [hsp, Except.error.injEq, exists_eq', true_iff]
        exact Or.inr ⟨p, hpmem, hbad'⟩
      · simp only [hsp, Except.error.injEq, reduceCtorEq, false_iff]
        exact hE
      · constructor
        · intro _
          exact ⟨hE, ⟨p, hpmem, hbad'⟩⟩
        · intro _
          exact ⟨p, hsp, hpmem, hbad'⟩
      · simp only [hsp, reduceCtorEq, false_iff]
        rintro ⟨_, hall⟩
        rw [(checkPages_eq_none total _).mpr hall] at hc
        cases hc

/-- A list starting with `a` is a prefix of `r` only if `r` starts with `a`. -/
theorem head_eq_of_isPrefixOf (a : Char) (l r : List Char)
    (h : (a :: l).isPrefixOf r = true) : r.head? = some a := by
  cases r with
  | nil => simp [List.isPrefixOf] at h
  | cons c cs =>
    simp only [List.isPrefixOf, Bool.and_eq_true, beq_iff_eq] at h
    simp [h.1]

/-- The percentage pattern is tried first in `parse_compression_target`,
but no argument matches both patterns: after the number, a size match
requires the next character to be `m` or `k`, while a percent match
requires `%` or `p`. -/
theorem matchPercent_eq_none_of_matchSize (t : List Char) (v : ℚ) (u : List Char)
    (h : matchSize t = some (v, u)) : matchPercent t = none := by
  cases hn : matchNumber t with
  | none => simp [matchSize, hn] at h
  | some pr =>
    obtain ⟨v0, rest⟩ := pr
    simp only [matchSize, hn] at h
    have hhead : (rest.dropWhile isPySpace).head? = some 'm' ∨
        (rest.dropWhile isPySpace).head? = some 'k' := by
      split at h
      · rename_i hc
        exact Or.inl (head_eq_of_isPrefixOf 'm' "b".data _ hc)
      · split at h
        · rename_i hc
          exact Or.inr (head_eq_of_isPrefixOf 'k' "b".data _ hc)
        · split at h
          · rename_i hc
            exact Or.inl (head_eq_of_isPrefixOf 'm' [] _ hc)
          · split at h
            · rename_i hc
              exact Or.inr (head_eq_of_isPrefixOf 'k' [] _ hc)
            · cases h
    simp only [matchPercent, hn]
    rw [if_neg]
    rintro (hp | hp)
    · rcases hhead with hh | hh <;> rw [hh] at hp <;> simp at hp
    · have hp' := head_eq_of_isPrefixOf 'p' "ercent".data _ hp
      rcases hhead with hh | hh <;> rw [hh] at hp' <;> simp at hp'

/-- C6: an argument matching the percentage pattern resolves to
`Percentage{value}` exactly when the value lies in `[10, 90]`, and to the
out-of-range percentage error (citing the value) otherwise; in particular
`resolve("compress 10%") = Percentage{10.0}`,
`resolve("compress 90%") = Percentage{90.0}`, and
`resolve("compress 9%")` and `resolve("compress 91%")` are errors. -/
theorem c6_percentage_bounds (target : List Char) (v : ℚ)
    (h : matchPercent target = some v) :
    (resolveArg target = CompressionTarget.percentage v ↔ 10 ≤ v ∧ v ≤ 90) ∧
    (resolveArg target = CompressionTarget.errPercentOutOfRange v ↔ ¬(10 ≤ v ∧ v ≤ 90)) ∧
    parseCompressionTarget "compress 10%" = CompressionTarget.percentage 10 ∧
    parseCompressionTarget "compress 90%" = CompressionTarget.percentage 90 ∧
    parseCompressionTarget "compress 9%" = CompressionTarget.errPercentOutOfRange 9 ∧
    parseCompressionTarget "compress 91%" = CompressionTarget.errPercentOutOfRange 91 ∧
    (parseCompressionTarget "compress 9%").isError = true ∧
    (parseCompressionTarget "compress 91%").isError = true := by
  refine ⟨?_, ?_, by decide, by decide, by decide, by decide, by decide, by decide⟩ <;>
  · simp only [resolveArg, h]
    split
    · rename_i hin
      simp [hin]
    · rename_i hout
      simp [hout]

theorem c6_percentage_bounds_witness :
    resolveArg "50%".data = CompressionTarget.percentage 50 :=
  ((c6_percentage_bounds "50%".data 50 (by decide)).1).mpr (by norm_num)

/-- C7: an argument matching the absolute-size pattern has `kb`/`k`
values divided by `1024`; the result resolves to `AbsoluteSize` exactly
when the converted megabyte value lies in `[0.1, 50]` and to the size
bound error otherwise; in particular
`resolve("compress 500kb") = AbsoluteSize{500/1024}` and
`resolve("compress 2mb") = AbsoluteSize{2.0}`. -/
theorem c7_size_conversion (target : List Char) (v : ℚ) (u : List Char) (mb : ℚ)
    (h : matchSize target = some (v, u))
    (hmb : mb = if u = "kb".data ∨ u = "k".data then v / 1024 else v) :
    (resolveArg target = CompressionTarget.size mb ↔ 1/10 ≤ mb ∧ mb ≤ 50) ∧
    (resolveArg target = CompressionTarget.errSizeOutOfRange ↔ ¬(1/10 ≤ mb ∧ mb ≤ 50)) ∧
    parseCompressionTarget "compress 500kb" = CompressionTarget.size (500 / 1024) ∧
    parseCompressionTarget "compress 2mb" = CompressionTarget.size 2 := by
  have hp := matchPercent_eq_none_of_matchSize target v u h
  have hmain : (resolveArg target = CompressionTarget.size mb ↔ 1/10 ≤ mb ∧ mb ≤ 50) ∧
      (resolveArg target = CompressionTarget.errSizeOutOfRange ↔
        ¬(1/10 ≤ mb ∧ mb ≤ 50)) := by
    simp only [resolveArg, hp, h, ← hmb]
    split
    · rename_i hin
      exact ⟨iff_of_true rfl hin, iff_of_false (by simp) (not_not_intro hin)⟩
    · rename_i hout
      exact ⟨iff_of_false (by simp) hout, iff_of_true rfl hout⟩
  exact ⟨hmain.1, hmain.2, by with_unfolding_all decide, by with_unfolding_all decide⟩

theorem c7_size_conversion_witness :
    resolveArg "500kb".data = CompressionTarget.size ((500 : ℚ) / 1024) :=
  ((c7_size_conversion "500kb".data 500 "kb".data ((500 : ℚ) / 1024)
    (by decide) (by simp)).1).mpr (by norm_num)

/-- C8: the outcome is `Minimal` whenever
`compressed_mb ≥ original_mb × 0.98`, regardless of target; otherwise a
percentage target is `Close` exactly when the relative deviation of the
compressed size from `original × value/100` exceeds 15% (else `Met`), an
absolute-size target is `Close` exactly when the relative deviation from
the target megabytes exceeds 15% (else `Met`), and a quality target is
always `Met`. -/
theorem c8_outcome_classification :
    (∀ (o c : ℚ) (t : CompressionTarget), o * (98 / 100) ≤ c →
      classifyOutcome o c t = CompressionOutcome.minimal) ∧
    (∀ (o c v : ℚ), c < o * (98 / 100) →
      ((classifyOutcome o c (CompressionTarget.percentage v) = CompressionOutcome.close ↔
          |c - o * (v / 100)| / (o * (v / 100)) * 100 > 15) ∧
        (classifyOutcome o c (CompressionTarget.percentage v) = CompressionOutcome.met ↔
          ¬(|c - o * (v / 100)| / (o * (v / 100)) * 100 > 15)))) ∧
    (∀ (o c m : ℚ), c < o * (98 / 100) →
      ((classifyOutcome o c (CompressionTarget.size m) = CompressionOutcome.close ↔
          |c - m| / m * 100 > 15) ∧
        (classifyOutcome o c (CompressionTarget.size m) = CompressionOutcome.met ↔
          ¬(|c - m| / m * 100 > 15)))) ∧
    (∀ (o c : ℚ) (lvl : List Char), c < o * (98 / 100) →
      classifyOutcome o c (CompressionTarget.quality lvl) = CompressionOutcome.met) := by
  refine ⟨?_, ?_, ?_, ?_⟩
  · intro o c t hmin
    simp only [classifyOutcome, if_pos hmin]
  · intro o c v hred
    simp only [classifyOutcome, if_neg (not_le.mpr hred)]
    split
    · rename_i hgt
      exact ⟨iff_of_true rfl hgt, iff_of_false (by simp) (not_not_intro hgt)⟩
    · rename_i hng
      exact ⟨iff_of_false (by simp) hng, iff_of_true rfl hng⟩
  · intro o c m hred
    simp only [classifyOutcome, if_neg (not_le.mpr hred)]
    split
    · rename_i hgt
      exact ⟨iff_of_true rfl hgt, iff_of_false (by simp) (not_not_intro hgt)⟩
    · rename_i hng
      exact ⟨iff_of_false (by simp) hng, iff_of_true rfl hng⟩
  · intro o c lvl hred
    simp only [classifyOutcome, if_neg (not_le.mpr hred)]

theorem c8_outcome_classification_witness :
    classifyOutcome 10 (99 / 10) (CompressionTarget.quality "default".data) =
      CompressionOutcome.minimal :=
  c8_outcome_classification.1 10 (99 / 10) (CompressionTarget.quality "default".data)
    (by norm_num)

/-- C9: a resolved absolute-size target whose megabyte value is at least
the original file size is reported as a distinct "target size too large"
error before the external compression call; a target strictly smaller
than the original proceeds to compression. -/
theorem c9_size_vs_original (text : String) (orig v : ℚ)
    (h : parseCompressionTarget text = CompressionTarget.size v) :
    (orig ≤ v → compressDispatch text orig = CompressAction.reportTargetTooLarge v orig) ∧
    (v < orig → compressDispatch text orig =
      CompressAction.runCompression (CompressionTarget.size v)) := by
  constructor
  · intro hge
    simp only [compressDispatch, h, CompressionTarget.isError, Bool.false_eq_true, if_false,
      if_pos hge]
  · intro hlt
    simp only [compressDispatch, h, CompressionTarget.isError, Bool.false_eq_true, if_false,
      if_neg (not_le.mpr hlt)]

theorem c9_size_vs_original_witness :
    compressDispatch "compress 2mb" 1 = CompressAction.reportTargetTooLarge 2 1 :=
  (c9_size_vs_original "compress 2mb" 1 2 (by with_unfolding_all decide)).1 (by norm_num)

/-- C10: the two `re.match` patterns anchor only at the start of the
argument, so an argument consisting of a valid pattern followed by extra
trailing characters still resolves to the non-error target of the
matching prefix: `resolve("compress 50%off") = Percentage{50.0}` and
`resolve("compress 2mbx") = AbsoluteSize{2.0}`, neither an error. -/
theorem c10_trailing_characters :
    parseCompressionTarget "compress 50%off" = CompressionTarget.percentage 50 ∧
    parseCompressionTarget "compress 2mbx" = CompressionTarget.size 2 ∧
    (parseCompressionTarget "compress 50%off").isError = false ∧
    (parseCompressionTarget "compress 2mbx").isError = false := by
  refine ⟨by decide, by with_unfolding_all decide, by decide, by with_unfolding_all decide⟩
